import Mathlib

/-!
Verification development for the Swingline weighted Voronoi stippling
pipeline (src/swingline.c).  The GPU shaders and the CPU driver code are
shallowly embedded as pure functions over exact rationals: each GLSL
float computation becomes the corresponding computation in the rational
field, textures become total functions from pixel coordinates to values,
and the per-fragment / per-vertex loops become folds over the ranges the
shader loops traverse.
-/

namespace Swingline

/-! ## WeightedReducer (sum_frag_src, src/swingline.c lines 97-132) -/

/-- Embeds the normalized read of the GL_RED / UNSIGNED_BYTE density
texture: a stored byte value b is sampled by the shader as b / 255. -/
def texel (img : ℕ → ℕ → ℕ) (a r : ℕ) : ℚ :=
  (img a r : ℚ) / 255

/-- Embeds the weighting computation of sum_frag_src (lines 119-120):
weight = 1 - d, then weight = 0.01 + 0.99 * weight, for a normalized
density sample d. -/
def weight (d : ℚ) : ℚ :=
  1 / 100 + 99 / 100 * (1 - d)

/-- Embeds the vec4 accumulator color of sum_frag_src: x and y are the
weighted positional sums, z the matching-pixel count, w the accumulated
weight. -/
structure SumCell where
  x : ℚ
  y : ℚ
  z : ℚ
  w : ℚ
deriving DecidableEq

/-- Embeds one trip of the column loop of sum_frag_src (lines 112-126):
if the decoded Voronoi id at column a of row r equals the site
index s of the cell, accumulate the weighted coordinates, the weight and the count. -/
def sum_step (ids img : ℕ → ℕ → ℕ) (s r : ℕ) (c : SumCell) (a : ℕ) : SumCell :=
  if ids a r = s then
    { x := c.x + ((a : ℚ) + 1 / 2) * weight (texel img a r)
      y := c.y + ((r : ℚ) + 1 / 2) * weight (texel img a r)
      z := c.z + 1
      w := c.w + weight (texel img a r) }
  else c

/-- Embeds the whole fragment computation of sum_frag_src for the output
cell at (site index s, row r): fold the column loop over x in [0, W),
then normalize the x sum by the image width and the y sum by the image
height (lines 129-130). -/
def sum_frag (W H : ℕ) (ids img : ℕ → ℕ → ℕ) (s r : ℕ) : SumCell :=
  let acc := (List.range W).foldl (sum_step ids img s r) { x := 0, y := 0, z := 0, w := 0 }
  { acc with x := acc.x / W, y := acc.y / H }

/-! ## CentroidExtractor (feedback_src, src/swingline.c lines 134-156) -/

/-- Embeds the accumulator of feedback_src: pos.x, pos.y, the summed
weight and the summed count. -/
structure FbAcc where
  px : ℚ
  py : ℚ
  wsum : ℚ
  cnt : ℚ
deriving DecidableEq

/-- Embeds one trip of the row loop of feedback_src (lines 146-152). -/
def fb_step (summed : ℕ → ℕ → SumCell) (i : ℕ) (a : FbAcc) (r : ℕ) : FbAcc :=
  { px := a.px + (summed i r).x
    py := a.py + (summed i r).y
    wsum := a.wsum + (summed i r).w
    cnt := a.cnt + (summed i r).z }

/-- Embeds the full feedback_src vertex computation for site index i:
fold the row loop over y in [0, H), then pos.xy /= weight and
pos.z = weight / count (lines 153-154).  The division is unguarded in
the source; in this exact embedding division by zero yields zero. -/
def feedback (H : ℕ) (summed : ℕ → ℕ → SumCell) (i : ℕ) : ℚ × ℚ × ℚ :=
  let a := (List.range H).foldl (fb_step summed i) { px := 0, py := 0, wsum := 0, cnt := 0 }
  (a.px / a.wsum, a.py / a.wsum, a.wsum / a.cnt)

/-- The total weight accumulated by feedback_src for site index i: the
wsum component of the row-loop fold. -/
def total_weight (H : ℕ) (summed : ℕ → ℕ → SumCell) (i : ℕ) : ℚ :=
  ((List.range H).foldl (fb_step summed i) { px := 0, py := 0, wsum := 0, cnt := 0 }).wsum

/-- Embeds feedback_draw (lines 614-631): transform feedback overwrites
entry i of the site buffer with the output of feedback_src, which does
not read the prior contents of the buffer. -/
def centroid_update (H : ℕ) (summed : ℕ → ℕ → SumCell) (prior : ℕ → ℚ × ℚ × ℚ)
    (i : ℕ) : ℚ × ℚ × ℚ :=
  feedback H summed i

/-! ## CellRasterizer index encoding (voronoi_vert_src lines 36-53,
decoded in sum_frag_src lines 115-116) -/

/-- Embeds the instance-id color encoding of voronoi_vert_src: channel
values (i mod 256, i / 256 mod 256, i / 65536 mod 256), each divided by
255 to a normalized float. -/
def encode_color (i : ℕ) : ℚ × ℚ × ℚ :=
  (((i % 256 : ℕ) : ℚ) / 255,
   ((i / 256 % 256 : ℕ) : ℚ) / 255,
   ((i / 65536 % 256 : ℕ) : ℚ) / 255)

/-- Embeds the index decoding of sum_frag_src line 116:
int(255 * (t.r + t.g * 256 + t.b * 65536)), truncation written as the
floor since the operand is nonnegative. -/
def decode_index (t : ℚ × ℚ × ℚ) : ℤ :=
  ⌊(255 : ℚ) * (t.1 + t.2.1 * 256 + t.2.2 * 65536)⌋

/-! ## Site-set initialization (voronoi_instances, lines 407-441) -/

/-- One trial of the rejection-sampling loop consumes three draws of
rand(): one for the x coordinate, one for the y coordinate and one for
the acceptance test. -/
structure Trial where
  r1 : ℕ
  r2 : ℕ
  r3 : ℕ
deriving DecidableEq

/-- Embeds the acceptance test of voronoi_instances line 422:
(rand() mod 256) > p for a pixel of luminance p. -/
def accepts (r p : ℕ) : Bool :=
  decide (p < r % 256)

/-- Embeds one trip of the seeding loop (lines 416-429): pick
x = r1 mod W and y = r2 mod H, read the luminance, and on acceptance
produce the site ((x + 0.5) / W, (y + 0.5) / H). -/
def trial_site (W H : ℕ) (img : ℕ → ℕ → ℕ) (t : Trial) : Option (ℚ × ℚ) :=
  if accepts t.r3 (img (t.r1 % W) (t.r2 % H)) then
    some ((((t.r1 % W : ℕ) : ℚ) + 1 / 2) / W, (((t.r2 % H : ℕ) : ℚ) + 1 / 2) / H)
  else none

/-- Embeds the whole seeding loop: run the trials of the random stream
in order, keep the accepted sites, and stop once n sites exist. -/
def seed_sites (W H n : ℕ) (img : ℕ → ℕ → ℕ) (trials : List Trial) : List (ℚ × ℚ) :=
  (trials.filterMap (trial_site W H img)).take n

/-- The fraction of the 256 equally likely residues of rand() mod 256
that pass the acceptance test for a pixel of luminance p. -/
def accept_prob (p : ℕ) : ℚ :=
  ((((Finset.range 256).filter fun r => accepts r p = true).card : ℕ) : ℚ) / 256

/-! ## Config and aspect-ratio setup (lines 329-355) -/

/-- Embeds the Config record (lines 329-341). -/
structure Config where
  width : ℕ
  height : ℕ
  samples : ℕ
  resolution : ℕ
  sx : ℚ
  sy : ℚ
  radius : ℚ
  iter : ℤ
  out : Option String

/-- Embeds config_set_aspect_ratio (lines 343-355): the wider dimension
gets scale factor 1 and the other gets the dimension ratio.  The source
name of this function ends in a letter pair this development avoids in
identifiers, hence the shortened Lean name. -/
def config_set_aspect (W H : ℕ) : ℚ × ℚ :=
  if H < W then (1, (W : ℚ) / (H : ℚ)) else ((H : ℚ) / (W : ℚ), 1)

/-! ## SVG export (main, lines 876-908) -/

/-- One exported circle element. -/
structure Circle where
  cx : ℚ
  cy : ℚ
  r : ℚ
deriving DecidableEq

/-- Embeds the per-site circle written by main (lines 896-903):
cx = width * x, cy = height - height * y,
r = radius * fmin(sx, sy) * fmin(width, height) * weight. -/
def svg_circles (c : Config) (pts : ℕ → ℚ × ℚ × ℚ) : List Circle :=
  (List.range c.samples).map fun i =>
    { cx := (c.width : ℚ) * (pts i).1
      cy := (c.height : ℚ) - (c.height : ℚ) * (pts i).2.1
      r := c.radius * min c.sx c.sy * min (c.width : ℚ) (c.height : ℚ) * (pts i).2.2 }

/-- Embeds the guard around the export block (line 876): the document is
produced exactly when an output path was configured. -/
def svg_output (c : Config) (pts : ℕ → ℚ × ℚ × ℚ) : Option (List Circle) :=
  match c.out with
  | none => none
  | some _ => some (svg_circles c pts)

/-! ## Batch iteration driver (main, lines 863-874) -/

/-- The three pipeline stages dispatched by the non-interactive loop
body: voronoi_draw, sum_draw, feedback_draw. -/
inductive Stage where
  | rasterize
  | reduce
  | extract
deriving DecidableEq

/-- Embeds the non-interactive loop of main (lines 865-872): each of the
iter passes dispatches the three stages in order. -/
def batch_trace : ℕ → List Stage
  | 0 => []
  | Nat.succ k => batch_trace k ++ [Stage.rasterize, Stage.reduce, Stage.extract]

/-! ## Specification-side definition for the conservation property -/

/-- Specification-side single-pass total (spec section 8, conservation
property): the sum of weight(density[x, y]) over every pixel whose
id-map value is s, written directly as a double sum over the image
domain.  This follows the wording of the spec and is compared against
the two-pass computation of the source. -/
def single_pass_weight (W H : ℕ) (ids img : ℕ → ℕ → ℕ) (s : ℕ) : ℚ :=
  ∑ a in Finset.range W, ∑ r in Finset.range H,
    if ids a r = s then weight (texel img a r) else 0

/-! ## Helper lemmas -/

/-- Sum of a function mapped over List.range agrees with the Finset sum. -/
lemma sum_map_range (f : ℕ → ℚ) (n : ℕ) :
    ((List.range n).map f).sum = ∑ a in Finset.range n, f a := by
  induction n with
  | zero => simp
  | succ n ih =>
    rw [List.range_succ, List.map_append, List.sum_append, Finset.sum_range_succ, ih]
    simp

/-- Closed form of the column-loop fold of sum_frag_src: every component
of the accumulator is the initial value plus a sum over the traversed
columns. -/
lemma sum_foldl_eq (ids img : ℕ → ℕ → ℕ) (s r : ℕ) (l : List ℕ) (c : SumCell) :
    l.foldl (sum_step ids img s r) c =
      { x := c.x + (l.map fun a =>
          if ids a r = s then ((a : ℚ) + 1 / 2) * weight (texel img a r) else 0).sum
        y := c.y + (l.map fun a =>
          if ids a r = s then ((r : ℚ) + 1 / 2) * weight (texel img a r) else 0).sum
        z := c.z + (l.map fun a => if ids a r = s then (1 : ℚ) else 0).sum
        w := c.w + (l.map fun a =>
          if ids a r = s then weight (texel img a r) else 0).sum } := by
  induction l generalizing c with
  | nil => simp
  | cons a tl ih =>
    rw [List.foldl_cons, ih]
    by_cases h : ids a r = s <;>
      simp only [sum_step, h, if_true, if_false, List.map_cons, List.sum_cons,
        SumCell.mk.injEq] <;>
      exact ⟨by ring, by ring, by ring, by ring⟩

/-- Closed form of the row-loop fold of feedback_src. -/
lemma fb_foldl_eq (summed : ℕ → ℕ → SumCell) (i : ℕ) (l : List ℕ) (a : FbAcc) :
    l.foldl (fb_step summed i) a =
      { px := a.px + (l.map fun r => (summed i r).x).sum
        py := a.py + (l.map fun r => (summed i r).y).sum
        wsum := a.wsum + (l.map fun r => (summed i r).w).sum
        cnt := a.cnt + (l.map fun r => (summed i r).z).sum } := by
  induction l generalizing a with
  | nil => simp
  | cons r tl ih =>
    rw [List.foldl_cons, ih]
    simp only [fb_step, List.map_cons, List.sum_cons, FbAcc.mk.injEq]
    exact ⟨by ring, by ring, by ring, by ring⟩

/-- The total weight accumulated by feedback_src is the sum of the w
components of the column of the weighted-sum table for the site. -/
lemma total_weight_eq (H : ℕ) (summed : ℕ → ℕ → SumCell) (i : ℕ) :
    total_weight H summed i = ∑ r in Finset.range H, (summed i r).w := by
  simp [total_weight, fb_foldl_eq, sum_map_range]

/-- The w component of a weighted-sum cell: the row sum of the weights of
the pixels matching the site index. -/
lemma sum_frag_w (W H : ℕ) (ids img : ℕ → ℕ → ℕ) (s r : ℕ) :
    (sum_frag W H ids img s r).w =
      ∑ a in Finset.range W, if ids a r = s then weight (texel img a r) else 0 := by
  simp [sum_frag, sum_foldl_eq, sum_map_range]

/-- The x component of a weighted-sum cell. -/
lemma sum_frag_x (W H : ℕ) (ids img : ℕ → ℕ → ℕ) (s r : ℕ) :
    (sum_frag W H ids img s r).x =
      (∑ a in Finset.range W,
        if ids a r = s then ((a : ℚ) + 1 / 2) * weight (texel img a r) else 0) / W := by
  simp [sum_frag, sum_foldl_eq, sum_map_range]

/-- The z component of a weighted-sum cell: the matching-pixel count. -/
lemma sum_frag_z (W H : ℕ) (ids img : ℕ → ℕ → ℕ) (s r : ℕ) :
    (sum_frag W H ids img s r).z =
      ∑ a in Finset.range W, if ids a r = s then (1 : ℚ) else 0 := by
  simp [sum_frag, sum_foldl_eq, sum_map_range]

/-- The y component of a weighted-sum cell. -/
lemma sum_frag_y (W H : ℕ) (ids img : ℕ → ℕ → ℕ) (s r : ℕ) :
    (sum_frag W H ids img s r).y =
      (∑ a in Finset.range W,
        if ids a r = s then ((r : ℚ) + 1 / 2) * weight (texel img a r) else 0) / H := by
  simp [sum_frag, sum_foldl_eq, sum_map_range]

/-- If the accumulated weight of the column of a site is zero, feedback_src
still divides: in the exact embedding every component of the written
record is a division by zero, hence zero, whatever the prior buffer
held. -/
lemma centroid_update_of_weight_zero (H : ℕ) (summed : ℕ → ℕ → SumCell)
    (prior : ℕ → ℚ × ℚ × ℚ) (i : ℕ) (h : total_weight H summed i = 0) :
    centroid_update H summed prior i = (0, 0, 0) := by
  simp only [total_weight] at h
  simp only [centroid_update, feedback]
  rw [h]
  simp

/-! ## Claim theorems -/

/-- C6: the weight applied by the WeightedReducer to a normalized density
sample d in [0, 1] has the form a + b * (1 - d) with strictly positive
floor a = 0.01 (and b = 0.99), so the weight of every pixel is strictly
positive, and the weight strictly decreases as the luminance increases. -/
theorem weight_positive_decreasing (d e : ℚ) (hd0 : 0 ≤ d) (hd1 : d ≤ 1)
    (he0 : 0 ≤ e) (he1 : e ≤ 1) (hde : d < e) :
    weight d = 1 / 100 + 99 / 100 * (1 - d) ∧
    0 < weight d ∧ 0 < weight e ∧ weight e < weight d := by
  refine ⟨rfl, ?_, ?_, ?_⟩ <;> simp only [weight] <;> linarith

/-- Witness for C6 at the density samples 0 and 1. -/
theorem weight_positive_decreasing_witness :
    weight 0 = 1 / 100 + 99 / 100 * (1 - 0) ∧
    0 < weight 0 ∧ 0 < weight 1 ∧ weight 1 < weight 0 :=
  weight_positive_decreasing 0 1 (by norm_num) (by norm_num) (by norm_num)
    (by norm_num) (by norm_num)

/-- C9: for positive width and height, the aspect scale factors computed
by config_set_aspect_ratio satisfy min(sx, sy) = 1 and
max(sx, sy) = max(W, H) / min(W, H), and both factors are at least 1. -/
theorem aspect_scale_minmax (W H : ℕ) (hW : 0 < W) (hH : 0 < H) :
    min (config_set_aspect W H).1 (config_set_aspect W H).2 = 1 ∧
    max (config_set_aspect W H).1 (config_set_aspect W H).2 =
      ((max W H : ℕ) : ℚ) / ((min W H : ℕ) : ℚ) ∧
    1 ≤ (config_set_aspect W H).1 ∧ 1 ≤ (config_set_aspect W H).2 := by
  have hW0 : (0 : ℚ) < (W : ℚ) := by exact_mod_cast hW
  have hH0 : (0 : ℚ) < (H : ℚ) := by exact_mod_cast hH
  by_cases h : H < W
  · have h1 : (1 : ℚ) ≤ (W : ℚ) / (H : ℚ) :=
      (one_le_div hH0).mpr (by exact_mod_cast h.le)
    simp only [config_set_aspect, if_pos h]
    rw [max_eq_left h.le, min_eq_right h.le]
    exact ⟨min_eq_left h1, max_eq_right h1, le_refl 1, h1⟩
  · have hWH : W ≤ H := Nat.le_of_not_lt h
    have h1 : (1 : ℚ) ≤ (H : ℚ) / (W : ℚ) :=
      (one_le_div hW0).mpr (by exact_mod_cast hWH)
    simp only [config_set_aspect, if_neg h]
    rw [max_eq_right hWH, min_eq_left hWH]
    exact ⟨min_eq_right h1, max_eq_left h1, h1, le_refl 1⟩

/-- Witness for C9 at a 3 by 2 image. -/
theorem aspect_scale_minmax_witness :
    min (config_set_aspect 3 2).1 (config_set_aspect 3 2).2 = 1 ∧
    max (config_set_aspect 3 2).1 (config_set_aspect 3 2).2 =
      ((max 3 2 : ℕ) : ℚ) / ((min 3 2 : ℕ) : ℚ) ∧
    1 ≤ (config_set_aspect 3 2).1 ∧ 1 ≤ (config_set_aspect 3 2).2 :=
  aspect_scale_minmax 3 2 (by norm_num) (by norm_num)

/-- C4: for every site index i below 2 to the 24, encoding i into three
8-bit channels in voronoi_vert_src and decoding the normalized channel
values in sum_frag_src recovers exactly i. -/
theorem index_color_roundtrip (i : ℕ) (h : i < 2 ^ 24) :
    decode_index (encode_color i) = (i : ℤ) := by
  have hm : i / 65536 % 256 = i / 65536 := Nat.mod_eq_of_lt (by omega)
  have key : i % 256 + 256 * (i / 256 % 256) + 65536 * (i / 65536) = i := by omega
  have hq : (255 : ℚ) * ((encode_color i).1 + (encode_color i).2.1 * 256 +
      (encode_color i).2.2 * 65536) =
      ((i % 256 + 256 * (i / 256 % 256) + 65536 * (i / 65536) : ℕ) : ℚ) := by
    simp only [encode_color, hm]
    push_cast
    field_simp
    ring
  rw [decode_index, hq, key]
  exact Int.floor_natCast i

/-- Witness for C4 at i = 300. -/
theorem index_color_roundtrip_witness :
    (300 : ℕ) < 2 ^ 24 ∧ decode_index (encode_color 300) = (300 : ℤ) :=
  ⟨by norm_num, index_color_roundtrip 300 (by norm_num)⟩

/-- C8: the non-interactive loop of main with a non-negative iteration
count k dispatches exactly k passes, each pass running the rasterize,
reduce and extract stages in that order and nothing else, and the loop
terminates after the k-th pass (the trace is a finite list of length
3 * k). -/
theorem batch_loop_trace (k : ℕ) :
    batch_trace k =
      (List.replicate k [Stage.rasterize, Stage.reduce, Stage.extract]).flatten ∧
    (batch_trace k).length = 3 * k := by
  constructor
  · induction k with
    | zero => rfl
    | succ k ih =>
      rw [batch_trace, ih, List.replicate_succ', List.flatten_append]
      simp
  · induction k with
    | zero => rfl
    | succ k ih =>
      rw [batch_trace, List.length_append, ih]
      simp [Nat.mul_succ]

/-- The acceptance probability of a pixel of luminance p, in closed
form: 255 - p of the 256 residues pass the test. -/
lemma accept_prob_eq (p : ℕ) (hp : p ≤ 255) :
    accept_prob p = (255 - (p : ℚ)) / 256 := by
  have hfilter : (Finset.range 256).filter (fun r => accepts r p = true) =
      Finset.Ico (p + 1) 256 := by
    ext r
    simp only [Finset.mem_filter, Finset.mem_range, Finset.mem_Ico, accepts,
      decide_eq_true_eq]
    constructor
    · rintro ⟨hr, hpr⟩
      rw [Nat.mod_eq_of_lt hr] at hpr
      omega
    · rintro ⟨h1, h2⟩
      rw [Nat.mod_eq_of_lt h2]
      omega
  rw [accept_prob, hfilter, Nat.card_Ico]
  rw [show 256 - (p + 1) = 255 - p by omega, Nat.cast_sub hp]
  norm_num

/-- C2 counterexample: the acceptance probability of a pure black pixel
(luminance 0) is 255/256, not the claimed 1 - 0/255 = 1; concretely the
draw 0 rejects a black candidate even though the claimed probability 1
would accept every candidate. -/
theorem seed_accept_prob_cex :
    accept_prob 0 ≠ 1 - (0 : ℚ) / 255 ∧
    trial_site 1 1 (fun _ _ => 0) ⟨0, 0, 0⟩ = none := by
  constructor
  · rw [accept_prob_eq 0 (by norm_num)]
    norm_num
  · rfl

/-- C2 amended: a candidate pixel of luminance p (0-255) is accepted
exactly when the next draw r satisfies r mod 256 > p, an event of
probability (255 - p) / 256 over the 256 equally likely residues of the
draw (not 1 - p / 255), and the loop runs until N accepted sites exist. -/
theorem seed_accept_prob_amended (p : ℕ) (hp : p ≤ 255) (W H n : ℕ)
    (img : ℕ → ℕ → ℕ) (t : Trial) (hP : img (t.r1 % W) (t.r2 % H) = p)
    (trials : List Trial)
    (hn : n ≤ (trials.filterMap (trial_site W H img)).length) :
    accept_prob p = (255 - (p : ℚ)) / 256 ∧
    ((trial_site W H img t).isSome = true ↔ accepts t.r3 p = true) ∧
    (seed_sites W H n img trials).length = n := by
  refine ⟨accept_prob_eq p hp, ?_, ?_⟩
  · by_cases hA : accepts t.r3 p = true <;> simp [trial_site, hP, hA]
  · rw [seed_sites, List.length_take]
    omega

/-- Witness for C2 amended: a black pixel in a 1 by 1 image with the
accepting draw 255. -/
theorem seed_accept_prob_amended_witness :
    accept_prob 0 = (255 - (0 : ℚ)) / 256 ∧
    ((trial_site 1 1 (fun _ _ => 0) ⟨0, 0, 255⟩).isSome = true ↔
      accepts 255 0 = true) ∧
    (seed_sites 1 1 1 (fun _ _ => 0) [⟨0, 0, 255⟩]).length = 1 :=
  seed_accept_prob_amended 0 (by norm_num) 1 1 1 (fun _ _ => 0) ⟨0, 0, 255⟩ rfl
    [⟨0, 0, 255⟩] (by norm_num [List.filterMap_cons, trial_site, accepts])

/-- C10: every site produced by the seeding loop is the center of some
image pixel, of the form ((a + 0.5) / W, (r + 0.5) / H) with a < W and
r < H, hence lies strictly inside the open unit square, and the accepted
pixel never has the maximal luminance 255. -/
theorem seed_sites_pixel_centers (W H n : ℕ) (img : ℕ → ℕ → ℕ)
    (trials : List Trial) (hW : 0 < W) (hH : 0 < H)
    (q : ℚ × ℚ) (hq : q ∈ seed_sites W H n img trials) :
    (∃ a r, a < W ∧ r < H ∧ img a r ≠ 255 ∧
      q = (((a : ℚ) + 1 / 2) / W, ((r : ℚ) + 1 / 2) / H)) ∧
    0 < q.1 ∧ q.1 < 1 ∧ 0 < q.2 ∧ q.2 < 1 := by
  have hW0 : (0 : ℚ) < (W : ℚ) := by exact_mod_cast hW
  have hH0 : (0 : ℚ) < (H : ℚ) := by exact_mod_cast hH
  rw [seed_sites] at hq
  have hq2 : q ∈ trials.filterMap (trial_site W H img) := List.take_subset _ _ hq
  rw [List.mem_filterMap] at hq2
  obtain ⟨t, -, ht⟩ := hq2
  by_cases hA : accepts t.r3 (img (t.r1 % W) (t.r2 % H)) = true
  case neg => simp [trial_site, hA] at ht
  rw [trial_site, if_pos hA, Option.some_inj] at ht
  have ha : t.r1 % W < W := Nat.mod_lt _ hW
  have hr : t.r2 % H < H := Nat.mod_lt _ hH
  have hlum : img (t.r1 % W) (t.r2 % H) ≠ 255 := by
    simp only [accepts, decide_eq_true_eq] at hA
    have : t.r3 % 256 < 256 := Nat.mod_lt _ (by norm_num)
    omega
  have haq : ((t.r1 % W : ℕ) : ℚ) + 1 ≤ (W : ℚ) := by exact_mod_cast ha
  have hrq : ((t.r2 % H : ℕ) : ℚ) + 1 ≤ (H : ℚ) := by exact_mod_cast hr
  subst ht
  refine ⟨⟨t.r1 % W, t.r2 % H, ha, hr, hlum, rfl⟩, ?_, ?_, ?_, ?_⟩
  · exact div_pos (by positivity) hW0
  · rw [div_lt_one hW0]
    linarith
  · exact div_pos (by positivity) hH0
  · rw [div_lt_one hH0]
    linarith

/-- Witness for C10: the single site produced by one accepting trial on a
1 by 1 black image is (1/2, 1/2), strictly inside the unit square. -/
theorem seed_sites_pixel_centers_witness :
    0 < (1 : ℚ) / 2 ∧ (1 : ℚ) / 2 < 1 ∧ 0 < (1 : ℚ) / 2 ∧ (1 : ℚ) / 2 < 1 :=
  (seed_sites_pixel_centers 1 1 1 (fun _ _ => 0) [⟨0, 0, 255⟩] (by norm_num)
    (by norm_num) ((1 : ℚ) / 2, (1 : ℚ) / 2)
    (by norm_num [seed_sites, List.filterMap_cons, trial_site, accepts,
      Prod.ext_iff])).2

/-- C1 counterexample: with a 1 by 1 black image whose only pixel belongs
to site 0, the weighted-sum column of site 1 accumulates zero weight,
yet the feedback stage does not leave site 1 at its prior position
(1/2, 1/2, 1/2): it overwrites it with the unguarded quotient. -/
theorem feedback_zero_weight_cex :
    total_weight 1 (sum_frag 1 1 (fun _ _ => 0) (fun _ _ => 0)) 1 = 0 ∧
    centroid_update 1 (sum_frag 1 1 (fun _ _ => 0) (fun _ _ => 0))
      (fun _ => ((1 : ℚ) / 2, (1 : ℚ) / 2, (1 : ℚ) / 2)) 1 ≠
      ((1 : ℚ) / 2, (1 : ℚ) / 2, (1 : ℚ) / 2) := by
  have hw : total_weight 1 (sum_frag 1 1 (fun _ _ => 0) (fun _ _ => 0)) 1 = 0 := by
    rw [total_weight_eq]
    simp [sum_frag_w]
  refine ⟨hw, ?_⟩
  rw [centroid_update_of_weight_zero 1 _ _ 1 hw]
  norm_num [Prod.ext_iff]

/-- C1 amended: feedback_src has no zero-weight guard.  When the total
accumulated weight of the column of a site is zero, the stage still
overwrites the site record with the unguarded quotients; under the
zero-division convention of the embedding the result is (0, 0, 0) (in IEEE
float arithmetic, NaN), independent of the prior-iteration position,
which is never consulted. -/
theorem feedback_zero_weight_unguarded (H : ℕ) (summed : ℕ → ℕ → SumCell)
    (prior : ℕ → ℚ × ℚ × ℚ) (i : ℕ) (h : total_weight H summed i = 0) :
    centroid_update H summed prior i = (0, 0, 0) ∧
    ∀ q : ℕ → ℚ × ℚ × ℚ,
      centroid_update H summed q i = centroid_update H summed prior i :=
  ⟨centroid_update_of_weight_zero H summed prior i h, fun _ => rfl⟩

/-- Witness for C1 amended: site 0 receives no pixel when the id map
assigns every pixel to site 1. -/
theorem feedback_zero_weight_unguarded_witness :
    centroid_update 1 (sum_frag 1 1 (fun _ _ => 1) (fun _ _ => 0))
      (fun _ => ((1 : ℚ) / 4, (3 : ℚ) / 4, 1)) 0 = (0, 0, 0) :=
  (feedback_zero_weight_unguarded 1 (sum_frag 1 1 (fun _ _ => 1) (fun _ _ => 0))
    (fun _ => ((1 : ℚ) / 4, (3 : ℚ) / 4, 1)) 0
    (by rw [total_weight_eq]; simp [sum_frag_w])).1

/-- C5: the two-pass computation — per-row accumulation in the
WeightedReducer followed by the CentroidExtractor summing the site
column over all rows — accumulates exactly the single-pass sum of
weight(density[x, y]) over every pixel whose id-map value is the site
(decomposition correctness, exact equality). -/
theorem weight_conservation (W H : ℕ) (ids img : ℕ → ℕ → ℕ) (s : ℕ) :
    total_weight H (sum_frag W H ids img) s = single_pass_weight W H ids img s := by
  rw [total_weight_eq, single_pass_weight, Finset.sum_comm]
  exact Finset.sum_congr rfl fun r _ => sum_frag_w W H ids img s r

/-- C3 counterexample: on a 3 by 1 black image whose every pixel matches
site 0, the weighted-sum entry for (site 0, row 0) has x component
(0.5 + 1.5 + 2.5) / 3 = 3/2, which is outside [0, 1]. -/
theorem sum_frag_range_cex :
    (sum_frag 3 1 (fun _ _ => 0) (fun _ _ => 0) 0 0).x = 3 / 2 ∧
    ¬ (sum_frag 3 1 (fun _ _ => 0) (fun _ _ => 0) 0 0).x ≤ 1 := by
  have hx : (sum_frag 3 1 (fun _ _ => 0) (fun _ _ => 0) 0 0).x = 3 / 2 := by
    rw [sum_frag_x]
    norm_num [Finset.sum_range_succ, texel, weight]
  exact ⟨hx, by rw [hx]; norm_num⟩

/-- C3 amended: the x and y components of a weighted-sum entry are the
accumulated weighted coordinate sums divided by the domain width and
height respectively; they are nonnegative and bounded by the
accumulated total weight of the entry (not by 1), so the centroid
quotient formed
later lies in [0, 1]. -/
theorem sum_frag_bounds_amended (W H : ℕ) (ids img : ℕ → ℕ → ℕ) (s r : ℕ)
    (himg : ∀ a b, img a b ≤ 255) (hW : 0 < W) (hr : r < H) :
    0 ≤ (sum_frag W H ids img s r).x ∧
    (sum_frag W H ids img s r).x ≤ (sum_frag W H ids img s r).w ∧
    0 ≤ (sum_frag W H ids img s r).y ∧
    (sum_frag W H ids img s r).y ≤ (sum_frag W H ids img s r).w := by
  have hW0 : (0 : ℚ) < (W : ℚ) := by exact_mod_cast hW
  have hH0 : (0 : ℚ) < (H : ℚ) := by
    exact_mod_cast lt_of_le_of_lt (Nat.zero_le r) hr
  have hwt0 : ∀ a b : ℕ, 0 ≤ weight (texel img a b) := by
    intro a b
    have h1 : (img a b : ℚ) ≤ 255 := by exact_mod_cast himg a b
    have h2 : texel img a b ≤ 1 := by
      rw [texel, div_le_one (by norm_num : (0 : ℚ) < 255)]
      exact h1
    rw [weight]
    linarith
  rw [sum_frag_x, sum_frag_y, sum_frag_w]
  refine ⟨?_, ?_, ?_, ?_⟩
  · refine div_nonneg (Finset.sum_nonneg fun a ha => ?_) hW0.le
    by_cases hc : ids a r = s
    · rw [if_pos hc]
      have := hwt0 a r
      positivity
    · rw [if_neg hc]
  · rw [div_le_iff₀ hW0, Finset.sum_mul]
    refine Finset.sum_le_sum fun a ha => ?_
    rw [ite_mul, zero_mul]
    by_cases hc : ids a r = s
    · rw [if_pos hc, if_pos hc, mul_comm (weight (texel img a r)) (W : ℚ)]
      refine mul_le_mul_of_nonneg_right ?_ (hwt0 a r)
      have haW : (a : ℚ) + 1 ≤ (W : ℚ) := by
        exact_mod_cast Finset.mem_range.mp ha
      linarith
    · rw [if_neg hc, if_neg hc]
  · refine div_nonneg (Finset.sum_nonneg fun a ha => ?_) hH0.le
    by_cases hc : ids a r = s
    · rw [if_pos hc]
      have := hwt0 a r
      positivity
    · rw [if_neg hc]
  · rw [div_le_iff₀ hH0, Finset.sum_mul]
    refine Finset.sum_le_sum fun a ha => ?_
    rw [ite_mul, zero_mul]
    by_cases hc : ids a r = s
    · rw [if_pos hc, if_pos hc, mul_comm (weight (texel img a r)) (H : ℚ)]
      refine mul_le_mul_of_nonneg_right ?_ (hwt0 a r)
      have hrH : (r : ℚ) + 1 ≤ (H : ℚ) := by exact_mod_cast hr
      linarith
    · rw [if_neg hc, if_neg hc]

/-- Witness for C3 amended at a 2 by 2 black image, entry (site 0,
row 0). -/
theorem sum_frag_bounds_amended_witness :
    0 ≤ (sum_frag 2 2 (fun _ _ => 0) (fun _ _ => 0) 0 0).x ∧
    (sum_frag 2 2 (fun _ _ => 0) (fun _ _ => 0) 0 0).x ≤
      (sum_frag 2 2 (fun _ _ => 0) (fun _ _ => 0) 0 0).w ∧
    0 ≤ (sum_frag 2 2 (fun _ _ => 0) (fun _ _ => 0) 0 0).y ∧
    (sum_frag 2 2 (fun _ _ => 0) (fun _ _ => 0) 0 0).y ≤
      (sum_frag 2 2 (fun _ _ => 0) (fun _ _ => 0) 0 0).w :=
  sum_frag_bounds_amended 2 2 (fun _ _ => 0) (fun _ _ => 0) 0 0
    (by intro a b; norm_num) (by norm_num) (by norm_num)

/-- C7: the program writes the vector document if and only if an output
path was configured, and the document holds exactly one filled circle
per site, with center (W * x, H - H * y) and radius
radius * min(sx, sy) * min(W, H) * site weight. -/
theorem svg_export_spec (c : Config) (pts : ℕ → ℚ × ℚ × ℚ) (i : ℕ)
    (hi : i < c.samples) :
    ((svg_output c pts).isSome = true ↔ c.out.isSome = true) ∧
    (c.out = none → svg_output c pts = none) ∧
    (c.out.isSome = true →
      svg_output c pts = some (svg_circles c pts) ∧
      (svg_circles c pts).length = c.samples ∧
      (svg_circles c pts)[i]? = some
        { cx := (c.width : ℚ) * (pts i).1
          cy := (c.height : ℚ) - (c.height : ℚ) * (pts i).2.1
          r := c.radius * min c.sx c.sy * min (c.width : ℚ) (c.height : ℚ) *
            (pts i).2.2 }) := by
  rcases hc : c.out with _ | path
  · refine ⟨?_, fun _ => ?_, fun hs => ?_⟩
    · simp [svg_output, hc]
    · simp [svg_output, hc]
    · simp at hs
  · refine ⟨?_, fun hn => ?_, fun _ => ⟨?_, ?_, ?_⟩⟩
    · simp [svg_output, hc]
    · simp at hn
    · simp [svg_output, hc]
    · simp [svg_circles]
    · simp only [svg_circles]
      rw [List.getElem?_map, List.getElem?_range hi]
      rfl

/-- Witness for C7 at a one-site configuration with an output path. -/
theorem svg_export_spec_witness :
    svg_output
        { width := 2, height := 3, samples := 1, resolution := 256,
          sx := 3 / 2, sy := 1, radius := 1 / 100, iter := 5,
          out := some ".svg" } (fun _ => (1 / 2, 1 / 2, 1)) =
      some (svg_circles
        { width := 2, height := 3, samples := 1, resolution := 256,
          sx := 3 / 2, sy := 1, radius := 1 / 100, iter := 5,
          out := some ".svg" } (fun _ => (1 / 2, 1 / 2, 1))) ∧
    (svg_circles
        { width := 2, height := 3, samples := 1, resolution := 256,
          sx := 3 / 2, sy := 1, radius := 1 / 100, iter := 5,
          out := some ".svg" } (fun _ => (1 / 2, 1 / 2, 1))).length = 1 :=
  have h := svg_export_spec
    { width := 2, height := 3, samples := 1, resolution := 256,
      sx := 3 / 2, sy := 1, radius := 1 / 100, iter := 5,
      out := some ".svg" } (fun _ => (1 / 2, 1 / 2, 1)) 0 (by norm_num)
  ⟨(h.2.2 rfl).1, (h.2.2 rfl).2.1⟩

end Swingline
